import Mathlib

/-!
Verification of the xpec-gen pipeline (src/mod.ts).

The development shallowly embeds the three cores of the program:

* the output sanitizer `cleanCode` (mod.ts line 152-154):
  `str.replace(fence-open-regex, "").replace(triple-backtick, "").trim()`,
  modelled on `List Char`;
* the LLM client `queryOpenRouter` (mod.ts line 11-41): the retry loop with
  rate-limit backoff, modelled with the network abstracted as an oracle that
  yields each attempt's fetch outcome;
* the orchestration in `main` (mod.ts line 118-150): the
  Architect/Auditor/optional-Reviewer sequence inside the try/catch, modelled
  with the three agents abstracted as fallible functions and with an event log
  recording stage invocations (with their inputs) and the final file write.

Text is `List Char`.  The fence-open regex is the literal JavaScript pattern
consisting of three backticks, then zero or more word characters, then a
newline, applied as a global replace; since a word character is never a
newline, a position matches exactly when the three backticks are followed by
the maximal word-character run and then a newline.
-/

namespace XpecGen

/-- Text, as a list of characters (JS strings). -/
abbrev Str := List Char

/-- The backtick character (code point 96). -/
def bt : Char := Char.ofNat 96

/-- JS regex word character: letters, digits, underscore. -/
def isWordChar (c : Char) : Bool := c.isAlphanum || c == '_'

/-- Whitespace as removed by JS String.prototype.trim (ASCII part plus
NBSP and BOM; other Unicode space characters do not occur in our inputs). -/
def isJsWS (c : Char) : Bool :=
  c == ' ' || c == '\t' || c == '\n' || c == '\r' ||
  c == Char.ofNat 11 || c == Char.ofNat 12 || c == Char.ofNat 160 ||
  c == Char.ofNat 0xFEFF

/-- Try to match the fence-open regex at the head of the text: three
backticks, a (maximal) run of word characters, then a newline.  Returns the
remainder after the match. -/
def matchFenceOpen : Str → Option Str
  | a :: b :: c :: rest =>
    if a = bt ∧ b = bt ∧ c = bt then
      match rest.dropWhile isWordChar with
      | d :: r => if d = '\n' then some r else none
      | [] => none
    else none
  | _ => none

/-- Fuel-indexed worker for the first global replace: scan left to right,
deleting every fence-open match (the replacement is empty, so scanning the
original remainder is equivalent to JS semantics). -/
def stripFenceOpenAux : Nat → Str → Str
  | 0, l => l
  | _ + 1, [] => []
  | fuel + 1, x :: xs =>
    match matchFenceOpen (x :: xs) with
    | some r => stripFenceOpenAux fuel r
    | none => x :: stripFenceOpenAux fuel xs

/-- First replace of cleanCode: delete every fence-open match, globally. -/
def stripFenceOpen (l : Str) : Str := stripFenceOpenAux l.length l

/-- Second replace of cleanCode: delete every occurrence of three
consecutive backticks, scanning left to right. -/
def stripTicks : Str → Str
  | [] => []
  | [a] => [a]
  | [a, b] => [a, b]
  | a :: b :: c :: rest =>
    if a = bt ∧ b = bt ∧ c = bt then stripTicks rest
    else a :: stripTicks (b :: c :: rest)

/-- JS trim: drop whitespace from both ends. -/
def trimChars (l : Str) : Str :=
  ((l.dropWhile isJsWS).reverse.dropWhile isJsWS).reverse

/-- The sanitizer cleanCode of mod.ts line 152-154. -/
def cleanCode (l : Str) : Str :=
  trimChars (stripTicks (stripFenceOpen l))

/-- Whether the text contains three consecutive backticks anywhere. -/
def hasTriple : Str → Bool
  | [] => false
  | [_] => false
  | [_, _] => false
  | a :: b :: c :: rest =>
    if a = bt ∧ b = bt ∧ c = bt then true else hasTriple (b :: c :: rest)

/-- The sanitizer as claim C8 words it: an opening marker is removed only
when it is leading (a single anchored match), while closing markers are
removed wherever they appear; then trim.  This definition follows the
claim text, for comparison against `cleanCode`, which is from the source. -/
def stripLeadingFenceOnly (l : Str) : Str :=
  match matchFenceOpen l with
  | some r => r
  | none => l

/-- Companion to `stripLeadingFenceOnly`: full sanitizer per claim C8. -/
def cleanCodeClaimC8 (l : Str) : Str :=
  trimChars (stripTicks (stripLeadingFenceOnly l))

/-- Errors that can be thrown inside the try of queryOpenRouter or of main. -/
inductive Err
  | configError : Err
  | apiError : Nat → Err
  | transportError : Str → Err
  | typeError : Err
deriving DecidableEq

/-- Response-body message: `content` may be absent. -/
structure RMessage where
  content : Option Str
deriving DecidableEq

/-- Response-body choice: `message` may be absent. -/
structure RChoice where
  message : Option RMessage
deriving DecidableEq

/-- Parsed JSON response body: the `choices` field may be absent. -/
structure RBody where
  choices : Option (List RChoice)
deriving DecidableEq

/-- The content extraction `data.choices[0]?.message?.content || ""` of
mod.ts line 34.  The optional chain starts only after the indexing, so an
absent `choices` field raises a TypeError (caught by the enclosing catch);
an empty choices list, an absent message or an absent content all yield the
empty string (`x || ""` on a string x equals x, as "" is its own default). -/
def extractContent (b : RBody) : Except Err Str :=
  match b.choices with
  | none => Except.error Err.typeError
  | some cs =>
    match cs.head? with
    | none => Except.ok []
    | some ch =>
      match ch.message with
      | none => Except.ok []
      | some m =>
        match m.content with
        | none => Except.ok []
        | some s => Except.ok s

/-- Outcome of one fetch attempt, abstracting the network: HTTP 429, other
non-2xx status, a thrown transport/parse error, or a 2xx body. -/
inductive FetchOutcome
  | rateLimited : FetchOutcome
  | badStatus : Nat → FetchOutcome
  | thrown : Err → FetchOutcome
  | success : RBody → FetchOutcome

/-- Observable result of one queryOpenRouter run: final result, the sleep
durations (ms, in order) and how many fetch attempts were made. -/
structure ClientRun where
  result : Except Err Str
  sleeps : List Nat
  fetches : Nat

/-- The retry loop of queryOpenRouter (mod.ts line 15-40), with the fetch of
each attempt given by the oracle `oc` (indexed from attempt 1).  The first
argument is the number of loop iterations still allowed including the
current one, so under the initial call (rem = retries, attempt = 1) the test
`rem = 0` is exactly the source's `attempt === retries`.  Status 429 sleeps
`2000 * attempt` and continues; a non-ok status and a thrown error are both
caught by the catch, which rethrows on the final attempt and otherwise
sleeps 1000; a 2xx body returns the extracted content, the extraction
TypeError being caught like any other error.  Falling out of the loop
returns the empty string. -/
def queryAux (oc : Nat → FetchOutcome) : Nat → Nat → ClientRun
  | 0, _ => ⟨Except.ok [], [], 0⟩
  | rem + 1, attempt =>
    match oc attempt with
    | FetchOutcome.rateLimited =>
      let r := queryAux oc rem (attempt + 1)
      ⟨r.result, 2000 * attempt :: r.sleeps, r.fetches + 1⟩
    | FetchOutcome.badStatus status =>
      if rem = 0 then ⟨Except.error (Err.apiError status), [], 1⟩
      else
        let r := queryAux oc rem (attempt + 1)
        ⟨r.result, 1000 :: r.sleeps, r.fetches + 1⟩
    | FetchOutcome.thrown e =>
      if rem = 0 then ⟨Except.error e, [], 1⟩
      else
        let r := queryAux oc rem (attempt + 1)
        ⟨r.result, 1000 :: r.sleeps, r.fetches + 1⟩
    | FetchOutcome.success body =>
      match extractContent body with
      | Except.ok s => ⟨Except.ok s, [], 1⟩
      | Except.error e =>
        if rem = 0 then ⟨Except.error e, [], 1⟩
        else
          let r := queryAux oc rem (attempt + 1)
          ⟨r.result, 1000 :: r.sleeps, r.fetches + 1⟩

/-- queryOpenRouter (mod.ts line 11-41): fails fast on a missing or empty
API key, otherwise runs the retry loop starting at attempt 1. -/
def queryOpenRouter (apiKey : Option Str) (oc : Nat → FetchOutcome)
    (retries : Nat) : ClientRun :=
  match apiKey with
  | none => ⟨Except.error Err.configError, [], 0⟩
  | some k =>
    if k = [] then ⟨Except.error Err.configError, [], 0⟩
    else queryAux oc retries 1

/-- Hard (thrown) failures of an attempt: a non-2xx, non-429 status, or a
transport/parse error. -/
def isHardFail : FetchOutcome → Bool
  | FetchOutcome.badStatus _ => true
  | FetchOutcome.thrown _ => true
  | _ => false

/-- The error a hard failure raises. -/
def outcomeErr : FetchOutcome → Err
  | FetchOutcome.badStatus status => Err.apiError status
  | FetchOutcome.thrown e => e
  | _ => Err.configError

/-- Content of the first choice as extracted when `choices` is present. -/
def firstContent (cs : List RChoice) : Str :=
  match cs.head? with
  | none => []
  | some ch =>
    match ch.message with
    | none => []
    | some m =>
      match m.content with
      | none => []
      | some s => s

/-- The three pipeline stages. -/
inductive Stage
  | architect : Stage
  | auditor : Stage
  | reviewer : Stage
deriving DecidableEq

/-- Observable pipeline events: a stage invocation with its two text
inputs, or the final write of the artifact to the output path. -/
inductive Event
  | stageCall : Stage → Str → Str → Event
  | writeFile : Str → Str → Event
deriving DecidableEq

/-- The three agents, abstracted: each takes its primary and context input
and either returns the raw LLM text or throws (as the client can). -/
structure Agents where
  architect : Str → Str → Except Err Str
  auditor : Str → Str → Except Err Str
  reviewer : Str → Str → Except Err Str

/-- Observable result of one main run (mod.ts line 118-150): the event log,
the error reported by the catch (if any), and the process exit code.  The
catch only logs the error; main then returns normally, so the exit code is
0 on every path modelled here. -/
structure MainResult where
  events : List Event
  reported : Option Err
  exitCode : Nat
deriving DecidableEq

/-- Whether an event is a Reviewer invocation. -/
def isReviewerCall : Event → Bool
  | Event.stageCall Stage.architect _ _ => false
  | Event.stageCall Stage.auditor _ _ => false
  | Event.stageCall Stage.reviewer _ _ => true
  | Event.writeFile _ _ => false

/-- Whether an event is the artifact write. -/
def isWriteEvent : Event → Bool
  | Event.writeFile _ _ => true
  | _ => false

/-- The try/catch body of main (mod.ts line 129-148), after the spec and
review files have been read (file contents are passed in as text; the
review text is empty when no --review flag was given).  Each stage's raw
output is sanitized with cleanCode before becoming the next stage's input;
the Reviewer runs only when the review text is non-empty (JS truthiness of
the string); the artifact is written only when every stage succeeded; any
thrown error reaches the catch, which records it, and main exits 0. -/
def mainCore (ag : Agents) (userPrompt specContent reviewContent outPath : Str) :
    MainResult :=
  match ag.architect userPrompt specContent with
  | Except.error e =>
    ⟨[Event.stageCall Stage.architect userPrompt specContent], some e, 0⟩
  | Except.ok raw1 =>
    match ag.auditor (cleanCode raw1) specContent with
    | Except.error e =>
      ⟨[Event.stageCall Stage.architect userPrompt specContent,
        Event.stageCall Stage.auditor (cleanCode raw1) specContent], some e, 0⟩
    | Except.ok raw2 =>
      if reviewContent = [] then
        ⟨[Event.stageCall Stage.architect userPrompt specContent,
          Event.stageCall Stage.auditor (cleanCode raw1) specContent,
          Event.writeFile outPath (cleanCode raw2)], none, 0⟩
      else
        match ag.reviewer (cleanCode raw2) reviewContent with
        | Except.error e =>
          ⟨[Event.stageCall Stage.architect userPrompt specContent,
            Event.stageCall Stage.auditor (cleanCode raw1) specContent,
            Event.stageCall Stage.reviewer (cleanCode raw2) reviewContent],
           some e, 0⟩
        | Except.ok raw3 =>
          ⟨[Event.stageCall Stage.architect userPrompt specContent,
            Event.stageCall Stage.auditor (cleanCode raw1) specContent,
            Event.stageCall Stage.reviewer (cleanCode raw2) reviewContent,
            Event.writeFile outPath (cleanCode raw3)], none, 0⟩

/-- Concrete response body whose first choice has content "ok". -/
def okBody : RBody := ⟨some [⟨some ⟨some ('o' :: 'k' :: [])⟩⟩]⟩

/-- Oracle: rate-limited on attempts 1 and 2, success from attempt 3. -/
def oc3 : Nat → FetchOutcome :=
  fun i => if 3 ≤ i then FetchOutcome.success okBody else FetchOutcome.rateLimited

/-- Oracle: every attempt gets HTTP 500. -/
def oc4 : Nat → FetchOutcome := fun _ => FetchOutcome.badStatus 500

/-- Oracle: every attempt is rate-limited. -/
def oc5 : Nat → FetchOutcome := fun _ => FetchOutcome.rateLimited

/-- Response body with no `choices` field at all. -/
def noChoicesBody : RBody := ⟨none⟩

/-- Oracle: every attempt succeeds with a body lacking `choices`. -/
def oc6 : Nat → FetchOutcome := fun _ => FetchOutcome.success noChoicesBody

/-- Response body with an empty `choices` list. -/
def emptyChoicesBody : RBody := ⟨some []⟩

/-- Oracle: every attempt succeeds with an empty choices list. -/
def oc6b : Nat → FetchOutcome := fun _ => FetchOutcome.success emptyChoicesBody

/-- Concrete input with a fence-open marker in the middle of the text. -/
def c8input : Str :=
  'x' :: '\n' :: bt :: bt :: bt :: 't' :: 's' :: '\n' :: 'y' :: []

/-- Agents that all succeed, with distinct outputs. -/
def agOk : Agents :=
  ⟨fun _ _ => Except.ok ('a' :: []),
   fun _ _ => Except.ok ('b' :: []),
   fun _ _ => Except.ok ('c' :: [])⟩

/-- Agents whose Auditor throws HTTP 500. -/
def agFail : Agents :=
  ⟨fun _ _ => Except.ok ('a' :: []),
   fun _ _ => Except.error (Err.apiError 500),
   fun _ _ => Except.ok ('c' :: [])⟩

section SanitizerLemmas

/-- A successful fence-open match consumes at least four characters. -/
theorem matchFenceOpen_length {l r : Str} (h : matchFenceOpen l = some r) :
    r.length + 4 ≤ l.length := by
  match l with
  | [] => simp [matchFenceOpen] at h
  | [a] => simp [matchFenceOpen] at h
  | [a, b] => simp [matchFenceOpen] at h
  | a :: b :: c :: rest =>
    simp only [matchFenceOpen] at h
    by_cases hc : a = bt ∧ b = bt ∧ c = bt
    · rw [if_pos hc] at h
      have hlen : (rest.dropWhile isWordChar).length ≤ rest.length :=
        List.Sublist.length_le (List.dropWhile_sublist (p := isWordChar) (l := rest))
      revert hlen h
      cases hd : rest.dropWhile isWordChar with
      | nil => intro h _; cases h
      | cons d r2 =>
        intro h hlen
        dsimp only at h
        by_cases hdn : d = '\n'
        · rw [if_pos hdn] at h
          injection h with h
          subst h
          simp only [List.length_cons] at hlen ⊢
          omega
        · rw [if_neg hdn] at h; cases h
    · rw [if_neg hc] at h; cases h

/-- The worker ignores the exact fuel once it is at least the length. -/
theorem stripFenceOpenAux_congr :
    ∀ f1 f2 l, l.length ≤ f1 → l.length ≤ f2 →
      stripFenceOpenAux f1 l = stripFenceOpenAux f2 l := by
  intro f1
  induction f1 with
  | zero =>
    intro f2 l h1 _
    have : l = [] := List.length_eq_zero.mp (Nat.le_zero.mp h1)
    subst this
    cases f2 <;> rfl
  | succ f ih =>
    intro f2 l h1 h2
    match l with
    | [] => cases f2 <;> rfl
    | x :: xs =>
      match f2 with
      | 0 => simp at h2
      | g + 1 =>
        show stripFenceOpenAux (f + 1) (x :: xs) = stripFenceOpenAux (g + 1) (x :: xs)
        simp only [stripFenceOpenAux]
        cases hm : matchFenceOpen (x :: xs) with
        | some r =>
          have hr := matchFenceOpen_length hm
          simp only [List.length_cons] at h1 h2 hr
          exact ih g r (by omega) (by omega)
        | none =>
          simp only [List.length_cons] at h1 h2
          exact congrArg (List.cons x) (ih g xs (by omega) (by omega))

/-- Unfolding equation: empty text. -/
theorem stripFenceOpen_nil : stripFenceOpen [] = [] := rfl

/-- Unfolding equation: a match at the current position is deleted and
scanning resumes on the remainder. -/
theorem stripFenceOpen_some {x : Char} {xs r : Str}
    (h : matchFenceOpen (x :: xs) = some r) :
    stripFenceOpen (x :: xs) = stripFenceOpen r := by
  have hr := matchFenceOpen_length h
  simp only [List.length_cons] at hr
  show stripFenceOpenAux (x :: xs).length (x :: xs) = stripFenceOpenAux r.length r
  simp only [List.length_cons, stripFenceOpenAux]
  rw [h]
  exact stripFenceOpenAux_congr xs.length r.length r (by omega) (by omega)

/-- Unfolding equation: no match at the current position, keep the
character and scan the tail. -/
theorem stripFenceOpen_none {x : Char} {xs : Str}
    (h : matchFenceOpen (x :: xs) = none) :
    stripFenceOpen (x :: xs) = x :: stripFenceOpen xs := by
  show stripFenceOpenAux (x :: xs).length (x :: xs) = x :: stripFenceOpenAux xs.length xs
  simp only [List.length_cons, stripFenceOpenAux]
  rw [h]

/-- A 2-element-or-shorter text has no backtick triple. -/
theorem hasTriple_short (a b : Char) :
    hasTriple [] = false ∧ hasTriple [a] = false ∧ hasTriple [a, b] = false :=
  ⟨rfl, rfl, rfl⟩

/-- Dropping the head cannot create a triple. -/
theorem hasTriple_tail {a : Char} {l : Str} (h : hasTriple (a :: l) = false) :
    hasTriple l = false := by
  match l with
  | [] => rfl
  | [b] => rfl
  | b :: c :: r =>
    simp only [hasTriple] at h
    split at h
    · exact absurd h (by simp)
    · exact h

/-- Adding a head preserves an existing triple. -/
theorem hasTriple_cons_true {l : Str} (a : Char) (h : hasTriple l = true) :
    hasTriple (a :: l) = true := by
  match l with
  | [] => simp [hasTriple] at h
  | [b] => simp [hasTriple] at h
  | b :: c :: r =>
    simp only [hasTriple]
    split
    · rfl
    · exact h

/-- A head distinct from the backtick does not change triple-freeness. -/
theorem hasTriple_cons_ne {a : Char} (l : Str) (h : a ≠ bt) :
    hasTriple (a :: l) = hasTriple l := by
  match l with
  | [] => rfl
  | [b] => rfl
  | b :: c :: r =>
    simp only [hasTriple]
    rw [if_neg (fun hh => h hh.1)]

/-- Characterization: containing a triple means splitting around one. -/
theorem hasTriple_exists : ∀ l : Str, hasTriple l = true →
    ∃ u v, l = u ++ bt :: bt :: bt :: v := by
  intro l
  induction l with
  | nil => intro h; simp [hasTriple] at h
  | cons a t ih =>
    intro h
    rcases t with _ | ⟨b, t2⟩
    · simp [hasTriple] at h
    rcases t2 with _ | ⟨c, rest⟩
    · simp [hasTriple] at h
    simp only [hasTriple] at h
    split at h
    · rename_i hc
      exact ⟨[], rest, by rw [hc.1, hc.2.1, hc.2.2]; rfl⟩
    · obtain ⟨u, v, huv⟩ := ih h
      exact ⟨a :: u, v, by rw [huv]; rfl⟩

/-- A split around a triple witnesses a triple. -/
theorem hasTriple_append (u v : Str) : hasTriple (u ++ bt :: bt :: bt :: v) = true := by
  induction u with
  | nil =>
    simp [hasTriple]
  | cons x u ih =>
    rw [List.cons_append]
    exact hasTriple_cons_true x ih

/-- A factor of a triple-free text is triple-free. -/
theorem hasTriple_infix_mono {u m v : Str} (h : hasTriple (u ++ m ++ v) = false) :
    hasTriple m = false := by
  by_contra hm
  have hm2 : hasTriple m = true := by simpa using hm
  obtain ⟨a, b, hab⟩ := hasTriple_exists m hm2
  have htrue := hasTriple_append (u ++ a) (b ++ v)
  have heq : u ++ m ++ v = (u ++ a) ++ bt :: bt :: bt :: (b ++ v) := by
    rw [hab]; simp [List.append_assoc]
  rw [heq, htrue] at h
  cases h

/-- Consing a non-backtick onto stripTicks input commutes. -/
theorem stripTicks_cons_of_ne {a : Char} (l : Str) (h : a ≠ bt) :
    stripTicks (a :: l) = a :: stripTicks l := by
  match l with
  | [] => rfl
  | [b] => rfl
  | b :: c :: r =>
    simp only [stripTicks]
    rw [if_neg (fun hh => h hh.1)]

/-- If the first two characters are not both backticks, the output of
stripTicks does not begin with two backticks. -/
theorem stripTicks_take2_ne {b c : Char} {rest : Str} (h : ¬(b = bt ∧ c = bt)) :
    ∀ s1 s2 t, stripTicks (b :: c :: rest) = s1 :: s2 :: t → ¬(s1 = bt ∧ s2 = bt) := by
  rintro s1 s2 t hS ⟨h1, h2⟩
  by_cases hb : b = bt
  · have hc : c ≠ bt := fun hcc => h ⟨hb, hcc⟩
    subst hb
    rcases rest with _ | ⟨r1, rs⟩
    · -- stripTicks [bt, c] = [bt, c]
      have : ([bt, c] : Str) = s1 :: s2 :: t := hS
      injection this with e1 e2
      injection e2 with e2 _
      exact hc (e2 ▸ h2)
    · have hstep : stripTicks (bt :: c :: r1 :: rs) = bt :: stripTicks (c :: r1 :: rs) := by
        simp only [stripTicks]
        rw [if_neg (fun hh => hc hh.2.1)]
      rw [hstep, stripTicks_cons_of_ne _ hc] at hS
      injection hS with e1 e2
      injection e2 with e2 _
      exact hc (e2 ▸ h2)
  · rw [stripTicks_cons_of_ne _ hb] at hS
    injection hS with e1 _
    exact hb (e1 ▸ h1)

/-- Helper: consing a head onto a triple-free text stays triple-free as long
as the head cannot complete a triple with the first two characters. -/
theorem hasTriple_cons_of (a : Char) (l : Str) (hl : hasTriple l = false)
    (hhead : ∀ s1 s2 t, l = s1 :: s2 :: t → ¬(a = bt ∧ s1 = bt ∧ s2 = bt)) :
    hasTriple (a :: l) = false := by
  match l with
  | [] => rfl
  | [b] => rfl
  | s1 :: s2 :: t =>
    simp only [hasTriple]
    rw [if_neg (hhead s1 s2 t rfl)]
    exact hl

/-- The key invariant: the output of the second replace never contains
three consecutive backticks. -/
theorem stripTicks_noTriple (l : Str) : hasTriple (stripTicks l) = false := by
  induction l using stripTicks.induct with
  | case1 => rfl
  | case2 a => rfl
  | case3 a b => rfl
  | case4 a b c rest hcond ih =>
    simp only [stripTicks]
    rw [if_pos hcond]
    exact ih
  | case5 a b c rest hcond ih =>
    simp only [stripTicks]
    rw [if_neg hcond]
    refine hasTriple_cons_of a _ ih ?_
    rintro s1 s2 t hS ⟨ha, h1, h2⟩
    exact stripTicks_take2_ne (fun hbc => hcond ⟨ha, hbc.1, hbc.2⟩) s1 s2 t hS ⟨h1, h2⟩

/-- On a triple-free text, no fence-open match exists at the head. -/
theorem matchFenceOpen_none_of_noTriple {l : Str} (h : hasTriple l = false) :
    matchFenceOpen l = none := by
  match l with
  | [] => rfl
  | [a] => rfl
  | [a, b] => rfl
  | a :: b :: c :: rest =>
    simp only [hasTriple] at h
    simp only [matchFenceOpen]
    split at h
    · exact absurd h (by simp)
    · rename_i hcond
      rw [if_neg hcond]

/-- The first replace leaves a triple-free text unchanged. -/
theorem stripFenceOpen_eq_self_of_noTriple : ∀ {l : Str}, hasTriple l = false →
    stripFenceOpen l = l := by
  intro l
  induction l with
  | nil => intro _; rfl
  | cons a t ih =>
    intro h
    rw [stripFenceOpen_none (matchFenceOpen_none_of_noTriple h)]
    rw [ih (hasTriple_tail h)]

/-- The second replace leaves a triple-free text unchanged. -/
theorem stripTicks_eq_self_of_noTriple : ∀ {l : Str}, hasTriple l = false →
    stripTicks l = l := by
  intro l
  induction l with
  | nil => intro _; rfl
  | cons a t ih =>
    intro h
    rcases t with _ | ⟨b, t2⟩
    · rfl
    rcases t2 with _ | ⟨c, r⟩
    · rfl
    simp only [hasTriple] at h
    split at h
    · exact absurd h (by simp)
    · rename_i hcond
      simp only [stripTicks]
      rw [if_neg hcond]
      rw [ih h]

section TrimLemmas

/-- dropWhile removes a prefix. -/
theorem dropWhile_eq_append (p : Char → Bool) (l : Str) :
    ∃ u, l = u ++ l.dropWhile p := by
  induction l with
  | nil => exact ⟨[], rfl⟩
  | cons a t ih =>
    by_cases hp : p a = true
    · obtain ⟨u, hu⟩ := ih
      refine ⟨a :: u, ?_⟩
      rw [List.dropWhile_cons, if_pos hp, List.cons_append, ← hu]
    · refine ⟨[], ?_⟩
      rw [List.dropWhile_cons, if_neg hp, List.nil_append]

/-- The head surviving dropWhile fails the predicate. -/
theorem dropWhile_head_not (p : Char → Bool) (l : Str) :
    ∀ c, (l.dropWhile p).head? = some c → p c = false := by
  induction l with
  | nil => intro c hc; cases hc
  | cons a t ih =>
    intro c hc
    rw [List.dropWhile_cons] at hc
    by_cases hp : p a = true
    · rw [if_pos hp] at hc
      exact ih c hc
    · rw [if_neg hp] at hc
      simp only [List.head?_cons, Option.some.injEq] at hc
      rw [← hc]
      simpa using hp

/-- dropWhile is the identity when the head already fails the predicate. -/
theorem dropWhile_eq_self (p : Char → Bool) (l : Str)
    (h : ∀ c, l.head? = some c → p c = false) : l.dropWhile p = l := by
  cases l with
  | nil => rfl
  | cons a t =>
    rw [List.dropWhile_cons, if_neg (by simp [h a rfl])]

/-- The trimmed text does not end with whitespace. -/
theorem trimChars_last (l : Str) :
    ∀ c, (trimChars l).getLast? = some c → isJsWS c = false := by
  intro c hc
  unfold trimChars at hc
  rw [List.getLast?_reverse] at hc
  exact dropWhile_head_not isJsWS _ c hc

/-- The trimmed text does not begin with whitespace. -/
theorem trimChars_head (l : Str) :
    ∀ c, (trimChars l).head? = some c → isJsWS c = false := by
  intro c hc
  unfold trimChars at hc
  rw [List.head?_reverse] at hc
  set A := l.dropWhile isJsWS with hA
  set B := A.reverse.dropWhile isJsWS with hB
  have hBne : B ≠ [] := by
    intro hnil
    rw [hnil] at hc
    cases hc
  obtain ⟨u, hu⟩ := dropWhile_eq_append isJsWS A.reverse
  have hlast : B.getLast? = A.reverse.getLast? := by
    rw [hu]
    exact (List.getLast?_append_of_ne_nil u hBne).symm
  rw [hlast, List.getLast?_reverse] at hc
  exact dropWhile_head_not isJsWS l c hc

/-- trim is the identity on texts with no edge whitespace. -/
theorem trimChars_eq_self (l : Str)
    (h1 : ∀ c, l.head? = some c → isJsWS c = false)
    (h2 : ∀ c, l.getLast? = some c → isJsWS c = false) : trimChars l = l := by
  unfold trimChars
  rw [dropWhile_eq_self _ _ h1]
  rw [dropWhile_eq_self _ _ (fun c hc => h2 c (by rwa [List.head?_reverse] at hc))]
  exact List.reverse_reverse l

/-- trim is idempotent. -/
theorem trimChars_trimChars (l : Str) : trimChars (trimChars l) = trimChars l :=
  trimChars_eq_self _ (trimChars_head l) (trimChars_last l)

/-- trim of a triple-free text is triple-free (it is a factor). -/
theorem hasTriple_trimChars {l : Str} (h : hasTriple l = false) :
    hasTriple (trimChars l) = false := by
  obtain ⟨w, hw⟩ := dropWhile_eq_append isJsWS l
  obtain ⟨u, hu⟩ := dropWhile_eq_append isJsWS (l.dropWhile isJsWS).reverse
  have hA : l.dropWhile isJsWS = trimChars l ++ u.reverse := by
    have hrev := congrArg List.reverse hu
    rw [List.reverse_reverse, List.reverse_append] at hrev
    exact hrev
  have h2 : hasTriple (w ++ (trimChars l ++ u.reverse)) = false := by
    rw [← hA, ← hw]; exact h
  refine hasTriple_infix_mono (u := w) (v := u.reverse) ?_
  rw [List.append_assoc]
  exact h2

end TrimLemmas

/-- The sanitized output never contains three consecutive backticks. -/
theorem cleanCode_noTriple_aux (l : Str) : hasTriple (cleanCode l) = false :=
  hasTriple_trimChars (stripTicks_noTriple _)

/-- On triple-free input, cleanCode only trims. -/
theorem cleanCode_of_noTriple {l : Str} (h : hasTriple l = false) :
    cleanCode l = trimChars l := by
  unfold cleanCode
  rw [stripFenceOpen_eq_self_of_noTriple h, stripTicks_eq_self_of_noTriple h]

/-- cleanCode is idempotent. -/
theorem cleanCode_cleanCode_aux (l : Str) : cleanCode (cleanCode l) = cleanCode l := by
  rw [cleanCode_of_noTriple (cleanCode_noTriple_aux l)]
  exact trimChars_trimChars (stripTicks (stripFenceOpen l))

/-- A word-character run followed by a newline drops to the newline. -/
theorem dropWhile_word_append (tag z : Str)
    (htag : ∀ c ∈ tag, isWordChar c = true) :
    (tag ++ '\n' :: z).dropWhile isWordChar = '\n' :: z := by
  induction tag with
  | nil =>
    rw [List.nil_append, List.dropWhile_cons, if_neg (by decide)]
  | cons a tg ih =>
    rw [List.cons_append, List.dropWhile_cons, if_pos (htag a (by simp))]
    exact ih (fun c hc => htag c (by simp [hc]))

/-- The fence-open regex matches a well-formed opening marker exactly. -/
theorem matchFenceOpen_marker (tag v : Str)
    (htag : ∀ c ∈ tag, isWordChar c = true) :
    matchFenceOpen (bt :: bt :: bt :: (tag ++ '\n' :: v)) = some v := by
  rw [matchFenceOpen]
  rw [if_pos ⟨rfl, rfl, rfl⟩, dropWhile_word_append tag v htag]
  dsimp only
  rw [if_pos rfl]

/-- Deleting a well-formed opening marker, wherever the scan meets it. -/
theorem stripFenceOpen_marker (tag v : Str)
    (htag : ∀ c ∈ tag, isWordChar c = true) :
    stripFenceOpen (bt :: bt :: bt :: (tag ++ '\n' :: v)) = stripFenceOpen v :=
  stripFenceOpen_some (matchFenceOpen_marker tag v htag)

/-- No fence-open match can start on a non-backtick character. -/
theorem matchFenceOpen_head_ne {x : Char} (t : Str) (h : x ≠ bt) :
    matchFenceOpen (x :: t) = none := by
  rcases t with _ | ⟨b, t2⟩
  · rfl
  rcases t2 with _ | ⟨c, r⟩
  · rfl
  simp only [matchFenceOpen]
  rw [if_neg (fun hh => h hh.1)]

/-- The first replace passes over a backtick-free prefix. -/
theorem stripFenceOpen_append_nobt (w : Str) : ∀ u : Str, (∀ c ∈ u, c ≠ bt) →
    stripFenceOpen (u ++ w) = u ++ stripFenceOpen w := by
  intro u
  induction u with
  | nil => intro _; simp
  | cons x us ih =>
    intro hu
    rw [List.cons_append,
      stripFenceOpen_none (matchFenceOpen_head_ne _ (hu x (by simp)))]
    rw [ih (fun c hc => hu c (by simp [hc])), List.cons_append]

/-- The second replace passes over a backtick-free prefix. -/
theorem stripTicks_append_nobt (w : Str) : ∀ u : Str, (∀ c ∈ u, c ≠ bt) →
    stripTicks (u ++ w) = u ++ stripTicks w := by
  intro u
  induction u with
  | nil => intro _; simp
  | cons x us ih =>
    intro hu
    rw [List.cons_append, stripTicks_cons_of_ne _ (hu x (by simp))]
    rw [ih (fun c hc => hu c (by simp [hc])), List.cons_append]

/-- A trailing bare triple is not an opening marker: the first replace
leaves a triple-free text with three backticks appended unchanged. -/
theorem stripFenceOpen_append3 : ∀ l : Str, hasTriple l = false →
    stripFenceOpen (l ++ [bt, bt, bt]) = l ++ [bt, bt, bt] := by
  intro l
  induction l with
  | nil =>
    intro _
    rw [List.nil_append]
    decide
  | cons x xs ih =>
    intro h
    have hm : matchFenceOpen (x :: (xs ++ [bt, bt, bt])) = none := by
      rcases xs with _ | ⟨y, ys⟩
      · rw [List.nil_append]
        simp only [matchFenceOpen]
        split
        · decide
        · rfl
      rcases ys with _ | ⟨z, zs⟩
      · simp only [List.cons_append, List.nil_append, matchFenceOpen]
        split
        · decide
        · rfl
      · simp only [hasTriple] at h
        split at h
        · exact absurd h (by simp)
        · rename_i hcond
          simp only [List.cons_append, matchFenceOpen]
          rw [if_neg hcond]
    rw [List.cons_append, stripFenceOpen_none hm, ih (hasTriple_tail h)]

/-- The second replace deletes exactly the appended triple from a
triple-free text. -/
theorem stripTicks_append3 : ∀ l : Str, hasTriple l = false →
    stripTicks (l ++ [bt, bt, bt]) = l := by
  intro l
  induction l with
  | nil => intro _; decide
  | cons x xs ih =>
    intro h
    rcases xs with _ | ⟨y, ys⟩
    · rw [List.cons_append, List.nil_append]
      by_cases hx : x = bt
      · subst hx; decide
      · rw [stripTicks]
        rw [if_neg (fun hh => hx hh.1)]
        rw [show stripTicks [bt, bt, bt] = [] from by decide]
    rcases ys with _ | ⟨z, zs⟩
    · rw [List.cons_append, List.cons_append, List.nil_append]
      by_cases hxy : x = bt ∧ y = bt
      · obtain ⟨hx, hy⟩ := hxy
        subst hx; subst hy; decide
      · rw [stripTicks]
        rw [if_neg (fun hh => hxy ⟨hh.1, hh.2.1⟩)]
        have hyt : stripTicks ([y] ++ [bt, bt, bt]) = [y] := ih rfl
        simp only [List.cons_append, List.nil_append] at hyt
        rw [hyt]
    · simp only [hasTriple] at h
      split at h
      · exact absurd h (by simp)
      · rename_i hcond
        simp only [List.cons_append, List.append_eq, stripTicks]
        rw [if_neg hcond]
        have hih : stripTicks ((y :: z :: zs) ++ [bt, bt, bt]) = y :: z :: zs := ih h
        simp only [List.cons_append, List.append_eq] at hih
        rw [hih]

/-- cleanCode on a well-formed fenced block: both markers are removed and
the interior is trimmed. -/
theorem cleanCode_fenced_aux (tag interior : Str)
    (htag : ∀ c ∈ tag, isWordChar c = true)
    (hint : hasTriple interior = false) :
    cleanCode (bt :: bt :: bt :: (tag ++ '\n' :: (interior ++ [bt, bt, bt]))) =
      trimChars interior := by
  unfold cleanCode
  rw [stripFenceOpen_marker tag _ htag, stripFenceOpen_append3 interior hint,
    stripTicks_append3 interior hint]

/-- cleanCode removes a well-formed opening marker anywhere after a
backtick-free prefix, not only at the start. -/
theorem cleanCode_marker_mid_aux (u tag v : Str)
    (hu : ∀ c ∈ u, c ≠ bt) (htag : ∀ c ∈ tag, isWordChar c = true) :
    cleanCode (u ++ (bt :: bt :: bt :: (tag ++ '\n' :: v))) = cleanCode (u ++ v) := by
  unfold cleanCode
  rw [stripFenceOpen_append_nobt _ u hu, stripFenceOpen_marker tag v htag,
    stripFenceOpen_append_nobt _ u hu, stripTicks_append_nobt _ u hu]

end SanitizerLemmas

section ClientLemmas

/-- Loop exhausted: the source falls out of the for loop and returns "". -/
theorem queryAux_zero (oc : Nat → FetchOutcome) (a : Nat) :
    queryAux oc 0 a = ⟨Except.ok [], [], 0⟩ := rfl

/-- Step: a rate-limited attempt sleeps 2000·attempt and continues. -/
theorem queryAux_succ_rl (oc : Nat → FetchOutcome) (rem a : Nat)
    (h : oc a = FetchOutcome.rateLimited) :
    queryAux oc (rem + 1) a =
      ⟨(queryAux oc rem (a + 1)).result,
       2000 * a :: (queryAux oc rem (a + 1)).sleeps,
       (queryAux oc rem (a + 1)).fetches + 1⟩ := by
  rw [queryAux, h]

/-- Step: a hard failure on the final attempt rethrows its error. -/
theorem queryAux_hard_last (oc : Nat → FetchOutcome) (a : Nat)
    (h : isHardFail (oc a) = true) :
    queryAux oc 1 a = ⟨Except.error (outcomeErr (oc a)), [], 1⟩ := by
  rcases ho : oc a with _ | s | e | b
  · rw [ho] at h; simp [isHardFail] at h
  · rw [queryAux, ho]; dsimp only; rw [if_pos rfl]; rfl
  · rw [queryAux, ho]; dsimp only; rw [if_pos rfl]; rfl
  · rw [ho] at h; simp [isHardFail] at h

/-- Step: a hard failure before the final attempt sleeps 1000 and retries. -/
theorem queryAux_succ_hard (oc : Nat → FetchOutcome) (rem a : Nat)
    (h : isHardFail (oc a) = true) (hrem : rem ≠ 0) :
    queryAux oc (rem + 1) a =
      ⟨(queryAux oc rem (a + 1)).result,
       1000 :: (queryAux oc rem (a + 1)).sleeps,
       (queryAux oc rem (a + 1)).fetches + 1⟩ := by
  rcases ho : oc a with _ | s | e | b
  · rw [ho] at h; simp [isHardFail] at h
  · rw [queryAux, ho]; dsimp only; rw [if_neg hrem]
  · rw [queryAux, ho]; dsimp only; rw [if_neg hrem]
  · rw [ho] at h; simp [isHardFail] at h

/-- Step: a 2xx attempt whose body extracts returns at once, no sleep. -/
theorem queryAux_succ_success_ok (oc : Nat → FetchOutcome) (rem a : Nat)
    (body : RBody) (s : Str)
    (h : oc a = FetchOutcome.success body)
    (hb : extractContent body = Except.ok s) :
    queryAux oc (rem + 1) a = ⟨Except.ok s, [], 1⟩ := by
  rw [queryAux, h]
  dsimp only
  rw [hb]

/-- Step: a 2xx attempt whose extraction throws, on the final attempt. -/
theorem queryAux_success_err_last (oc : Nat → FetchOutcome) (a : Nat)
    (body : RBody) (e : Err)
    (h : oc a = FetchOutcome.success body)
    (hb : extractContent body = Except.error e) :
    queryAux oc 1 a = ⟨Except.error e, [], 1⟩ := by
  rw [queryAux, h]
  dsimp only
  rw [hb]
  dsimp only
  rw [if_pos rfl]

/-- Step: a 2xx attempt whose extraction throws, before the final attempt:
the error is caught, the client sleeps 1000 and retries. -/
theorem queryAux_succ_success_err (oc : Nat → FetchOutcome) (rem a : Nat)
    (body : RBody) (e : Err)
    (h : oc a = FetchOutcome.success body)
    (hb : extractContent body = Except.error e) (hrem : rem ≠ 0) :
    queryAux oc (rem + 1) a =
      ⟨(queryAux oc rem (a + 1)).result,
       1000 :: (queryAux oc rem (a + 1)).sleeps,
       (queryAux oc rem (a + 1)).fetches + 1⟩ := by
  rw [queryAux, h]
  dsimp only
  rw [hb]
  dsimp only
  rw [if_neg hrem]

/-- Backoff list identity: peel the first of d+1 increasing sleeps. -/
theorem map_backoff_succ (a d : Nat) :
    (List.range (d + 1)).map (fun i => 2000 * (a + i)) =
      2000 * a :: (List.range d).map (fun i => 2000 * (a + 1 + i)) := by
  rw [List.range_succ_eq_map, List.map_cons, List.map_map]
  refine congrArg₂ List.cons (by simp) ?_
  refine List.map_congr_left ?_
  intro i _
  simp only [Function.comp_apply]
  omega

/-- Loop lemma for claim C3: d rate-limited attempts then a success. -/
theorem queryAux_rl_success (oc : Nat → FetchOutcome) (body : RBody) (c : Str)
    (hbody : extractContent body = Except.ok c) :
    ∀ d a n, (∀ i, a ≤ i → i < a + d → oc i = FetchOutcome.rateLimited) →
      oc (a + d) = FetchOutcome.success body → d < n →
      queryAux oc n a =
        ⟨Except.ok c, (List.range d).map (fun i => 2000 * (a + i)), d + 1⟩ := by
  intro d
  induction d with
  | zero =>
    intro a n _ hsucc hn
    match n, hn with
    | m + 1, _ =>
      rw [queryAux_succ_success_ok oc m a body c (by simpa using hsucc) hbody]
      simp
  | succ d ih =>
    intro a n hrl hsucc hn
    match n, hn with
    | m + 1, _ =>
      rw [queryAux_succ_rl oc m a (hrl a (le_refl a) (by omega))]
      rw [ih (a + 1) m (fun i h1 h2 => hrl i (by omega) (by omega))
        (by rw [show a + 1 + d = a + (d + 1) from by omega]; exact hsucc) (by omega)]
      rw [map_backoff_succ]

/-- Loop lemma for claim C4: n+1 consecutive hard failures. -/
theorem queryAux_hard_all (oc : Nat → FetchOutcome) :
    ∀ n a, (∀ i, a ≤ i → i ≤ a + n → isHardFail (oc i) = true) →
      queryAux oc (n + 1) a =
        ⟨Except.error (outcomeErr (oc (a + n))), List.replicate n 1000, n + 1⟩ := by
  intro n
  induction n with
  | zero =>
    intro a hall
    rw [queryAux_hard_last oc a (hall a (le_refl a) (by omega))]
    simp
  | succ m ih =>
    intro a hall
    rw [queryAux_succ_hard oc (m + 1) a (hall a (le_refl a) (by omega)) (by omega)]
    rw [ih (a + 1) (fun i h1 h2 => hall i (by omega) (by omega))]
    rw [show a + 1 + m = a + (m + 1) from by omega]
    rw [List.replicate_succ]

/-- Loop lemma for claim C5: every attempt rate-limited, loop falls out. -/
theorem queryAux_rl_all (oc : Nat → FetchOutcome) :
    ∀ n a, (∀ i, a ≤ i → i < a + n → oc i = FetchOutcome.rateLimited) →
      queryAux oc n a =
        ⟨Except.ok [], (List.range n).map (fun i => 2000 * (a + i)), n⟩ := by
  intro n
  induction n with
  | zero =>
    intro a _
    simp [queryAux_zero]
  | succ m ih =>
    intro a hall
    rw [queryAux_succ_rl oc m a (hall a (le_refl a) (by omega))]
    rw [ih (a + 1) (fun i h1 h2 => hall i (by omega) (by omega))]
    rw [map_backoff_succ]

/-- Extraction with `choices` present never throws: it yields the first
choice's content, with the empty string for any missing layer. -/
theorem extractContent_some (cs : List RChoice) :
    extractContent ⟨some cs⟩ = Except.ok (firstContent cs) := by
  rcases cs with _ | ⟨⟨m⟩, rest⟩
  · rfl
  rcases m with _ | ⟨cont⟩
  · rfl
  rcases cont with _ | s
  · rfl
  · rfl

/-- Extraction with `choices` absent throws the TypeError. -/
theorem extractContent_none (b : RBody) (h : b.choices = none) :
    extractContent b = Except.error Err.typeError := by
  rcases b with ⟨bc⟩
  cases h
  rfl

end ClientLemmas

section Claims

/-- Claim C1: with empty/absent review-rules text the pipeline never
invokes the Reviewer, and on the success path the persisted artifact is the
sanitized Auditor output, itself computed from the sanitized Architect
output. -/
theorem pipeline_without_review_rules (ag : Agents) (p s path : Str) :
    ((mainCore ag p s [] path).events.all (fun e => !isReviewerCall e) = true) ∧
    (∀ raw1 raw2, ag.architect p s = Except.ok raw1 →
      ag.auditor (cleanCode raw1) s = Except.ok raw2 →
      mainCore ag p s [] path =
        ⟨[Event.stageCall Stage.architect p s,
          Event.stageCall Stage.auditor (cleanCode raw1) s,
          Event.writeFile path (cleanCode raw2)], none, 0⟩) := by
  constructor
  · rcases h1 : ag.architect p s with e1 | raw1
    · simp [mainCore, h1, isReviewerCall]
    · rcases h2 : ag.auditor (cleanCode raw1) s with e2 | raw2
      · simp [mainCore, h1, h2, isReviewerCall]
      · simp [mainCore, h1, h2, isReviewerCall]
  · intro raw1 raw2 h1 h2
    simp [mainCore, h1, h2]

/-- Witness for claim C1 at concrete agents and inputs. -/
theorem pipeline_without_review_rules_witness :
    mainCore agOk ('p' :: []) ('s' :: []) [] ('o' :: []) =
      ⟨[Event.stageCall Stage.architect ('p' :: []) ('s' :: []),
        Event.stageCall Stage.auditor (cleanCode ('a' :: [])) ('s' :: []),
        Event.writeFile ('o' :: []) (cleanCode ('b' :: []))], none, 0⟩ ∧
    (mainCore agOk ('p' :: []) ('s' :: []) [] ('o' :: [])).events.all
      (fun e => !isReviewerCall e) = true :=
  ⟨(pipeline_without_review_rules agOk ('p' :: []) ('s' :: []) ('o' :: [])).2
      ('a' :: []) ('b' :: []) rfl rfl,
   (pipeline_without_review_rules agOk ('p' :: []) ('s' :: []) ('o' :: [])).1⟩

/-- Claim C2: with non-empty review-rules text the stages run in order
Architect, Auditor, Reviewer, each output sanitized before becoming the
next input; the Reviewer's code input is exactly the sanitized Auditor
output and the persisted artifact is the sanitized Reviewer output. -/
theorem pipeline_with_review_rules (ag : Agents) (p s rv path raw1 raw2 raw3 : Str)
    (hrv : rv ≠ [])
    (h1 : ag.architect p s = Except.ok raw1)
    (h2 : ag.auditor (cleanCode raw1) s = Except.ok raw2)
    (h3 : ag.reviewer (cleanCode raw2) rv = Except.ok raw3) :
    mainCore ag p s rv path =
      ⟨[Event.stageCall Stage.architect p s,
        Event.stageCall Stage.auditor (cleanCode raw1) s,
        Event.stageCall Stage.reviewer (cleanCode raw2) rv,
        Event.writeFile path (cleanCode raw3)], none, 0⟩ := by
  simp [mainCore, h1, h2, h3, hrv]

/-- Witness for claim C2 at concrete agents and inputs. -/
theorem pipeline_with_review_rules_witness :
    mainCore agOk ('p' :: []) ('s' :: []) ('r' :: []) ('o' :: []) =
      ⟨[Event.stageCall Stage.architect ('p' :: []) ('s' :: []),
        Event.stageCall Stage.auditor (cleanCode ('a' :: [])) ('s' :: []),
        Event.stageCall Stage.reviewer (cleanCode ('b' :: [])) ('r' :: []),
        Event.writeFile ('o' :: []) (cleanCode ('c' :: []))], none, 0⟩ :=
  pipeline_with_review_rules agOk ('p' :: []) ('s' :: []) ('r' :: []) ('o' :: [])
    ('a' :: []) ('b' :: []) ('c' :: []) (by simp) rfl rfl rfl

/-- Claim C3: k−1 rate-limited attempts followed by a success within the
retry budget return the success content after exactly k−1 backoff sleeps of
2000·1, …, 2000·(k−1) ms in order, using exactly k fetch attempts. -/
theorem client_rate_limit_backoff (key : Str) (oc : Nat → FetchOutcome)
    (retries k : Nat) (body : RBody) (c : Str)
    (hkey : key ≠ []) (hk1 : 1 ≤ k) (hk2 : k ≤ retries)
    (hrl : ∀ i, 1 ≤ i → i < k → oc i = FetchOutcome.rateLimited)
    (hsucc : oc k = FetchOutcome.success body)
    (hbody : extractContent body = Except.ok c) :
    queryOpenRouter (some key) oc retries =
      ⟨Except.ok c, (List.range (k - 1)).map (fun i => 2000 * (1 + i)), k⟩ := by
  simp only [queryOpenRouter]
  rw [if_neg hkey]
  have h1k : 1 + (k - 1) = k := by omega
  have h := queryAux_rl_success oc body c hbody (k - 1) 1 retries
    (fun i hi1 hi2 => hrl i hi1 (by omega)) (by rw [h1k]; exact hsucc) (by omega)
  rw [h]
  congr 1
  omega

/-- Witness for claim C3: two 429s then a success, with retries = 5. -/
theorem client_rate_limit_backoff_witness :
    queryOpenRouter (some ('k' :: [])) oc3 5 =
      ⟨Except.ok ('o' :: 'k' :: []),
       (List.range 2).map (fun i => 2000 * (1 + i)), 3⟩ :=
  client_rate_limit_backoff ('k' :: []) oc3 5 3 okBody ('o' :: 'k' :: [])
    (by simp) (by omega) (by omega)
    (fun i h1 h2 => by simp only [oc3]; rw [if_neg (by omega)])
    rfl rfl

/-- Claim C4: when all maxRetries attempts fail hard (non-2xx non-429
status, or transport/parse failure), the client raises the final attempt's
error after exactly maxRetries attempts, each earlier failure being
followed by a fixed 1000 ms wait. -/
theorem client_hard_failures_raise_final (key : Str) (oc : Nat → FetchOutcome)
    (retries : Nat) (hkey : key ≠ []) (h1 : 1 ≤ retries)
    (hall : ∀ i, 1 ≤ i → i ≤ retries → isHardFail (oc i) = true) :
    queryOpenRouter (some key) oc retries =
      ⟨Except.error (outcomeErr (oc retries)),
       List.replicate (retries - 1) 1000, retries⟩ := by
  obtain ⟨m, rfl⟩ : ∃ m, retries = m + 1 := ⟨retries - 1, by omega⟩
  simp only [queryOpenRouter]
  rw [if_neg hkey]
  rw [queryAux_hard_all oc m 1 (fun i hi1 hi2 => hall i hi1 (by omega))]
  rw [show 1 + m = m + 1 from by omega]
  simp

/-- Witness for claim C4: four attempts, all HTTP 500. -/
theorem client_hard_failures_witness :
    queryOpenRouter (some ('k' :: [])) oc4 4 =
      ⟨Except.error (Err.apiError 500), List.replicate 3 1000, 4⟩ :=
  client_hard_failures_raise_final ('k' :: []) oc4 4 (by simp) (by omega)
    (fun i _ _ => rfl)

/-- Claim C5: when every attempt is rate-limited the loop falls through
after maxRetries attempts and the client returns the empty string rather
than raising. -/
theorem client_exhaustion_returns_empty (key : Str) (oc : Nat → FetchOutcome)
    (retries : Nat) (hkey : key ≠ [])
    (hall : ∀ i, 1 ≤ i → i ≤ retries → oc i = FetchOutcome.rateLimited) :
    queryOpenRouter (some key) oc retries =
      ⟨Except.ok [], (List.range retries).map (fun i => 2000 * (1 + i)),
       retries⟩ := by
  simp only [queryOpenRouter]
  rw [if_neg hkey]
  exact queryAux_rl_all oc retries 1 (fun i hi1 hi2 => hall i hi1 (by omega))

/-- Witness for claim C5: two attempts, both rate-limited. -/
theorem client_exhaustion_witness :
    queryOpenRouter (some ('k' :: [])) oc5 2 =
      ⟨Except.ok [], (List.range 2).map (fun i => 2000 * (1 + i)), 2⟩ :=
  client_exhaustion_returns_empty ('k' :: []) oc5 2 (by simp) (fun i _ _ => rfl)

/-- Claim C6 counterexample: on a success response whose body has no
`choices` field at all, the client does not return the empty string; the
indexing throws a TypeError that goes down the error path (here, the final
attempt, so it is raised). -/
theorem client_missing_choices_counterexample :
    (queryAux oc6 1 1).result = Except.error Err.typeError ∧
    (queryAux oc6 1 1).result ≠ Except.ok [] := by
  constructor
  · rfl
  · intro h
    exact Except.noConfusion
      (show Except.error Err.typeError = Except.ok ([] : Str) from h)

/-- Claim C6 (amended): on a success response whose body has a `choices`
field, the client returns the first choice's message content, with the
empty string when the first choice, its message or its content is missing —
not an error; but when `choices` itself is absent, the extraction raises a
TypeError handled by the error path: propagated on the final attempt,
otherwise a fixed 1000 ms wait and a retry. -/
theorem client_success_extraction_amended :
    (∀ cs : List RChoice, extractContent ⟨some cs⟩ = Except.ok (firstContent cs)) ∧
    (∀ b : RBody, b.choices = none → extractContent b = Except.error Err.typeError) ∧
    (∀ (oc : Nat → FetchOutcome) (rem a : Nat) (body : RBody) (cs : List RChoice),
      oc a = FetchOutcome.success body → body.choices = some cs →
      queryAux oc (rem + 1) a = ⟨Except.ok (firstContent cs), [], 1⟩) ∧
    (∀ (oc : Nat → FetchOutcome) (a : Nat) (body : RBody),
      oc a = FetchOutcome.success body → body.choices = none →
      queryAux oc 1 a = ⟨Except.error Err.typeError, [], 1⟩) ∧
    (∀ (oc : Nat → FetchOutcome) (rem a : Nat) (body : RBody),
      rem ≠ 0 → oc a = FetchOutcome.success body → body.choices = none →
      queryAux oc (rem + 1) a =
        ⟨(queryAux oc rem (a + 1)).result,
         1000 :: (queryAux oc rem (a + 1)).sleeps,
         (queryAux oc rem (a + 1)).fetches + 1⟩) := by
  refine ⟨extractContent_some, extractContent_none, ?_, ?_, ?_⟩
  · intro oc rem a body cs h hch
    have hb : extractContent body = Except.ok (firstContent cs) := by
      rcases body with ⟨bc⟩
      cases hch
      exact extractContent_some cs
    exact queryAux_succ_success_ok oc rem a body _ h hb
  · intro oc a body h hch
    exact queryAux_success_err_last oc a body _ h (extractContent_none body hch)
  · intro oc rem a body hrem h hch
    exact queryAux_succ_success_err oc rem a body _ h
      (extractContent_none body hch) hrem

/-- Witness for the amended claim C6: empty choices list gives "", absent
choices field gives the TypeError. -/
theorem client_success_extraction_witness :
    queryAux oc6b 5 1 = ⟨Except.ok [], [], 1⟩ ∧
    queryAux oc6 1 1 = ⟨Except.error Err.typeError, [], 1⟩ :=
  ⟨client_success_extraction_amended.2.2.1 oc6b 4 1 emptyChoicesBody [] rfl rfl,
   client_success_extraction_amended.2.2.2.1 oc6 1 noChoicesBody rfl rfl⟩

/-- Claim C7: the sanitizer is idempotent, and already-clean text (no
triple-backtick sequence, no edge whitespace) is returned unchanged. -/
theorem sanitize_idempotent :
    (∀ x : Str, cleanCode (cleanCode x) = cleanCode x) ∧
    (∀ x : Str, hasTriple x = false →
      (∀ c, x.head? = some c → isJsWS c = false) →
      (∀ c, x.getLast? = some c → isJsWS c = false) →
      cleanCode x = x) := by
  refine ⟨cleanCode_cleanCode_aux, ?_⟩
  intro x hx h1 h2
  rw [cleanCode_of_noTriple hx]
  exact trimChars_eq_self x h1 h2

/-- Witness for claim C7 at concrete inputs. -/
theorem sanitize_idempotent_witness :
    cleanCode (cleanCode (bt :: bt :: bt :: '\n' :: 'a' :: bt :: bt :: bt :: [])) =
      cleanCode (bt :: bt :: bt :: '\n' :: 'a' :: bt :: bt :: bt :: []) ∧
    cleanCode ('a' :: 'b' :: []) = 'a' :: 'b' :: [] := by
  constructor
  · exact sanitize_idempotent.1 _
  · refine sanitize_idempotent.2 ('a' :: 'b' :: []) (by decide) ?_ ?_
    · intro c hc
      simp only [List.head?_cons, Option.some.injEq] at hc
      subst hc
      decide
    · intro c hc
      have hlast : (('a' :: 'b' :: [] : Str)).getLast? = some 'b' := by decide
      rw [hlast] at hc
      simp only [Option.some.injEq] at hc
      subst hc
      decide

/-- Claim C8 counterexample: a fence-open marker in the middle of the text
is removed whole (tag and newline included) by the code, while the claim
says opening markers are removed only when leading; the two sanitizers
disagree on this input. -/
theorem sanitize_leading_only_counterexample :
    cleanCode c8input = 'x' :: '\n' :: 'y' :: [] ∧
    cleanCodeClaimC8 c8input = 'x' :: '\n' :: 't' :: 's' :: '\n' :: 'y' :: [] ∧
    cleanCode c8input ≠ cleanCodeClaimC8 c8input :=
  ⟨by decide, by decide, by decide⟩

/-- Claim C8 (amended): on a leading fence opening marker (delimiter line
with optional word-character language tag), a triple-free interior and a
trailing closing marker, sanitize removes both markers and trims the
interior; opening markers are removed wherever they appear (after any
backtick-free prefix), not only when leading; closing markers are removed
wherever they appear. -/
theorem sanitize_fence_removal_amended :
    (∀ tag interior : Str, (∀ c ∈ tag, isWordChar c = true) →
      hasTriple interior = false →
      cleanCode (bt :: bt :: bt :: (tag ++ '\n' :: (interior ++ [bt, bt, bt]))) =
        trimChars interior) ∧
    (∀ u tag v : Str, (∀ c ∈ u, c ≠ bt) → (∀ c ∈ tag, isWordChar c = true) →
      cleanCode (u ++ (bt :: bt :: bt :: (tag ++ '\n' :: v))) =
        cleanCode (u ++ v)) :=
  ⟨cleanCode_fenced_aux, cleanCode_marker_mid_aux⟩

/-- Witness for the amended claim C8 at concrete inputs. -/
theorem sanitize_fence_removal_witness :
    cleanCode (bt :: bt :: bt :: (('t' :: 's' :: []) ++ '\n' ::
        ((' ' :: 'a' :: []) ++ [bt, bt, bt]))) = trimChars (' ' :: 'a' :: []) ∧
    cleanCode (('x' :: []) ++ (bt :: bt :: bt :: (('t' :: 's' :: []) ++ '\n' ::
        ('y' :: [])))) = cleanCode (('x' :: []) ++ ('y' :: [])) :=
  ⟨sanitize_fence_removal_amended.1 ('t' :: 's' :: []) (' ' :: 'a' :: [])
      (by decide) (by decide),
   sanitize_fence_removal_amended.2 ('x' :: []) ('t' :: 's' :: []) ('y' :: [])
      (by decide) (by decide)⟩

/-- Claim C9 counterexample: on a failing run the error is caught and
reported, but main returns normally afterwards, so the process completes
with exit code 0 — not the non-zero completion the claim asserts. -/
theorem pipeline_exit_code_counterexample :
    (mainCore agFail [] [] [] ('o' :: [])).reported = some (Err.apiError 500) ∧
    (mainCore agFail [] [] [] ('o' :: [])).exitCode = 0 :=
  ⟨rfl, rfl⟩

/-- Claim C9 (amended): any stage exception aborts the remaining stages
immediately — no artifact write occurs, no stage is skipped-and-continued,
and the error reaches the top-level catch which reports it; the process
then completes with exit code 0 (the catch only logs; it does not signal
non-zero completion). -/
theorem pipeline_abort_on_error_amended (ag : Agents) (p s rv path : Str) :
    (mainCore ag p s rv path).exitCode = 0 ∧
    (∀ e, (mainCore ag p s rv path).reported = some e →
      (mainCore ag p s rv path).events.all (fun ev => !isWriteEvent ev) = true ∧
      ((ag.architect p s = Except.error e ∧
        (mainCore ag p s rv path).events =
          [Event.stageCall Stage.architect p s]) ∨
       (∃ raw1, ag.architect p s = Except.ok raw1 ∧
         ag.auditor (cleanCode raw1) s = Except.error e ∧
         (mainCore ag p s rv path).events =
           [Event.stageCall Stage.architect p s,
            Event.stageCall Stage.auditor (cleanCode raw1) s]) ∨
       (∃ raw1 raw2, ag.architect p s = Except.ok raw1 ∧
         ag.auditor (cleanCode raw1) s = Except.ok raw2 ∧ rv ≠ [] ∧
         ag.reviewer (cleanCode raw2) rv = Except.error e ∧
         (mainCore ag p s rv path).events =
           [Event.stageCall Stage.architect p s,
            Event.stageCall Stage.auditor (cleanCode raw1) s,
            Event.stageCall Stage.reviewer (cleanCode raw2) rv]))) := by
  rcases h1 : ag.architect p s with e1 | raw1
  · refine ⟨by simp [mainCore, h1], ?_⟩
    intro e he
    have he1 : e1 = e := by
      simp [mainCore, h1] at he
      exact he
    subst he1
    exact ⟨by simp [mainCore, h1, isWriteEvent],
      Or.inl ⟨rfl, by simp [mainCore, h1]⟩⟩
  · rcases h2 : ag.auditor (cleanCode raw1) s with e2 | raw2
    · refine ⟨by simp [mainCore, h1, h2], ?_⟩
      intro e he
      have he2 : e2 = e := by
        simp [mainCore, h1, h2] at he
        exact he
      subst he2
      exact ⟨by simp [mainCore, h1, h2, isWriteEvent],
        Or.inr (Or.inl ⟨raw1, rfl, h2, by simp [mainCore, h1, h2]⟩)⟩
    · by_cases hrv : rv = []
      · subst hrv
        refine ⟨by simp [mainCore, h1, h2], ?_⟩
        intro e he
        simp [mainCore, h1, h2] at he
      · rcases h3 : ag.reviewer (cleanCode raw2) rv with e3 | raw3
        · refine ⟨by simp [mainCore, h1, h2, h3, hrv], ?_⟩
          intro e he
          have he3 : e3 = e := by
            simp [mainCore, h1, h2, h3, hrv] at he
            exact he
          subst he3
          exact ⟨by simp [mainCore, h1, h2, h3, hrv, isWriteEvent],
            Or.inr (Or.inr ⟨raw1, raw2, rfl, h2, hrv, h3,
              by simp [mainCore, h1, h2, h3, hrv]⟩)⟩
        · refine ⟨by simp [mainCore, h1, h2, h3, hrv], ?_⟩
          intro e he
          simp [mainCore, h1, h2, h3, hrv] at he

/-- Witness for the amended claim C9: a failing Auditor leaves exit code 0,
and no write event occurs. -/
theorem pipeline_abort_on_error_witness :
    (mainCore agFail [] [] [] ('o' :: [])).exitCode = 0 ∧
    (mainCore agFail [] [] [] ('o' :: [])).events.all
      (fun ev => !isWriteEvent ev) = true :=
  ⟨(pipeline_abort_on_error_amended agFail [] [] [] ('o' :: [])).1,
   ((pipeline_abort_on_error_amended agFail [] [] [] ('o' :: [])).2
      (Err.apiError 500) rfl).1⟩

/-- Claim C10: for every input, the sanitized output contains no
three-backtick delimiter sequence anywhere. -/
theorem sanitize_output_no_fence (l : Str) : hasTriple (cleanCode l) = false :=
  cleanCode_noTriple_aux l

end Claims

end XpecGen
